import Mathlib

/-!
Shallow embedding of the Persona CRUD service
(`src/app/services/persona_service.py` together with its HTTP boundary
`src/app/controllers/persona_controller.py`).

The relational store is modelled as a list of rows (`Store`).  A SQLAlchemy
session holding the table is replaced by explicit state passing: each
mutating operation takes the current store and returns either a domain
error (`Except.error`) — in which case the transaction is rolled back and
the caller keeps the unchanged store — or the committed store together
with the operation's return value.

The ORM model `app.models.persona.Persona` and the pydantic views are not
part of the two source files; their shape is modelled from the spec's data
model section: identifier (system-assigned integer), first/last name,
globally unique email, optional phone, optional birth date, active flag,
optional notes, with a storage-level uniqueness constraint on the email
column acting as the final authority on commit.
-/

namespace PersonaService

/-- A calendar date as the service sees it (only year/month/day are read). -/
structure PDate where
  year : Int
  month : Nat
  day : Nat
deriving Repr, DecidableEq

/-- Modelled from the spec: the `Persona` ORM row (`app.models.persona`,
not under `src/`): system-assigned integer id, text names, nullable unique
email column, optional phone, optional birth date, active flag, optional
notes. -/
structure Persona where
  id : Nat
  first_name : String
  last_name : String
  email : Option String
  phone : Option String
  birth_date : Option PDate
  is_active : Bool
  notes : Option String
deriving Repr, DecidableEq

/-- The persisted table of Persona rows, in storage order. -/
abbrev Store := List Persona

/-- The two domain errors of `app.services.errors`, plus the raw
`IntegrityError` that `poblar_personas` lets escape uncaught. -/
inductive ServiceError where
  | personaNotFound
  | emailAlreadyExists
  | integrityError
deriving Repr, DecidableEq

/-- Payload of `PersonaCreate`: all fields supplied, email required. -/
structure PersonaCreate where
  first_name : String
  last_name : String
  email : String
  phone : Option String
  birth_date : Option PDate
  is_active : Bool
  notes : Option String
deriving Repr, DecidableEq

/-- Payload of `PersonaUpdate` under `model_dump(exclude_unset=True)`:
`some v` means the field is present in the request, `none` that it was not
set.  (Explicitly sending `null` for an optional field is not modelled.) -/
structure PersonaUpdate where
  first_name : Option String
  last_name : Option String
  email : Option String
  phone : Option String
  birth_date : Option PDate
  is_active : Option Bool
  notes : Option String
deriving Repr, DecidableEq

/-- Does inserting or keeping row `p` violate the unique-email constraint
against the rows `db`?  SQL `UNIQUE` ignores NULLs, so a `none` email never
conflicts. -/
def emailConflictB (p : Persona) (db : Store) : Bool :=
  match p.email with
  | none => false
  | some e => db.any (fun q => q.email == some e)

/-- The storage-level invariant: no two rows share a non-NULL email. -/
def emailsOk : Store → Bool
  | [] => true
  | p :: rest => !emailConflictB p rest && emailsOk rest

/-- `max(id) + 1`: the system-assigned identifier for the next insert
(autoincrement primary key). -/
def freshId (db : Store) : Nat :=
  db.foldl (fun m p => max m p.id) 0 + 1

/-- The row built by `create_persona` before `db.add`. -/
def mkPersona (pid : Nat) (payload : PersonaCreate) : Persona :=
  { id := pid
    first_name := payload.first_name
    last_name := payload.last_name
    email := some payload.email
    phone := payload.phone
    birth_date := payload.birth_date
    is_active := payload.is_active
    notes := payload.notes }

/-- `create_persona(db, payload)`: optimistic duplicate-email check
(`query.filter(Persona.email == payload.email).first()`), then insert and
commit; the storage constraint is the final guard on commit. -/
def create_persona (db : Store) (payload : PersonaCreate) :
    Except ServiceError (Store × Persona) :=
  match db.find? (fun p => p.email == some payload.email) with
  | some _ => .error .emailAlreadyExists
  | none =>
    let obj := mkPersona (freshId db) payload
    -- commit: the unique constraint re-checks the inserted row; on
    -- violation the transaction rolls back and EmailAlreadyExists is raised
    if emailConflictB obj db then .error .emailAlreadyExists
    else .ok (db ++ [obj], obj)

/-- `get_persona(db, persona_id)`. -/
def get_persona (db : Store) (persona_id : Nat) : Except ServiceError Persona :=
  match db.find? (fun p => p.id == persona_id) with
  | none => .error .personaNotFound
  | some obj => .ok obj

/-- Remove the first row with the given id (`db.delete(obj)` where `obj`
is the first query result). -/
def removeById (persona_id : Nat) : Store → Store
  | [] => []
  | p :: rest =>
    if p.id == persona_id then rest else p :: removeById persona_id rest

/-- `delete_persona(db, persona_id)`. -/
def delete_persona (db : Store) (persona_id : Nat) : Except ServiceError Store :=
  match db.find? (fun p => p.id == persona_id) with
  | none => .error .personaNotFound
  | some _ => .ok (removeById persona_id db)

/-- `reset_personas(db)`: `query(Persona).delete()` removes every row and
reports the rowcount. -/
def reset_personas (db : Store) : Store × Nat :=
  ([], db.length)

/-- Apply the fields present in the request to the row
(`for field, value in data.items(): setattr(obj, field, value)`). -/
def applyUpdate (obj : Persona) (payload : PersonaUpdate) : Persona :=
  { obj with
    first_name := payload.first_name.getD obj.first_name
    last_name := payload.last_name.getD obj.last_name
    email := match payload.email with
      | some e => some e
      | none => obj.email
    phone := match payload.phone with
      | some v => some v
      | none => obj.phone
    birth_date := match payload.birth_date with
      | some v => some v
      | none => obj.birth_date
    is_active := payload.is_active.getD obj.is_active
    notes := match payload.notes with
      | some v => some v
      | none => obj.notes }

/-- Replace the first row with the given id by `obj'` (the session's
`setattr` mutation of the queried row, made visible by `commit`). -/
def replaceById (persona_id : Nat) (newObj : Persona) : Store → Store
  | [] => []
  | p :: rest =>
    if p.id == persona_id then newObj :: rest
    else p :: replaceById persona_id newObj rest

/-- `update_persona(db, persona_id, payload)`: 404 if the id is absent;
if the request carries an email different from the row's current one,
pre-check uniqueness excluding the row's own id; apply the partial fields
and commit, the unique constraint again being the final guard on a changed
email column. -/
def update_persona (db : Store) (persona_id : Nat) (payload : PersonaUpdate) :
    Except ServiceError (Store × Persona) :=
  match db.find? (fun p => p.id == persona_id) with
  | none => .error .personaNotFound
  | some obj =>
    let emailTaken : Bool :=
      match payload.email with
      | some e =>
        if some e != obj.email then
          (db.find? (fun p => p.email == some e && p.id != persona_id)).isSome
        else false
      | none => false
    if emailTaken then .error .emailAlreadyExists
    else
      let newObj := applyUpdate obj payload
      -- commit: SQLAlchemy only writes changed columns; a changed email is
      -- re-checked by the unique constraint against every other row
      if newObj.email != obj.email && emailConflictB newObj (removeById persona_id db) then
        .error .emailAlreadyExists
      else .ok (replaceById persona_id newObj db, newObj)

/-- Does the pattern start the character list? -/
def listStarts : List Char → List Char → Bool
  | [], _ => true
  | _ :: _, [] => false
  | a :: as, b :: bs => a == b && listStarts as bs

/-- Does the pattern occur as a contiguous sublist? -/
def subOccurs (pat : List Char) : List Char → Bool
  | [] => listStarts pat []
  | c :: rest => listStarts pat (c :: rest) || subOccurs pat rest

/-- Does `f` accept some suffix of the list (the whole list included)? -/
def anySuffix (f : List Char → Bool) : List Char → Bool
  | [] => f []
  | c :: rest => f (c :: rest) || anySuffix f rest

/-- SQL `LIKE` pattern matching over character lists: `'%'` matches any
character sequence (via a matching suffix), `'_'` matches exactly one
character, every other pattern character matches itself; the pattern must
consume the whole string. -/
def likeMatch : List Char → List Char → Bool
  | [], s => s.isEmpty
  | c :: ps, s =>
    if c == '%' then anySuffix (likeMatch ps) s
    else
      match s with
      | [] => false
      | b :: rest => (c == '_' || c == b) && likeMatch ps rest

/-- `column.contains(term)` on a non-null text column: SQLAlchemy renders
`LIKE '%' || term || '%'` and does not escape the wildcards `'%'` and
`'_'` inside the term, so they stay live in the pattern. -/
def strContains (s termino : String) : Bool :=
  likeMatch ('%' :: (termino.data ++ ['%'])) s.data

/-- `Persona.email.contains(term)` on the nullable email column: SQL
`NULL LIKE ...` is not true, so a row with NULL email never matches. -/
def emailContains (e : Option String) (termino : String) : Bool :=
  match e with
  | none => false
  | some s => strContains s termino

/-- The `or_` filter of `search_personas`. -/
def searchMatch (termino : String) (p : Persona) : Bool :=
  strContains p.first_name termino || strContains p.last_name termino ||
    emailContains p.email termino

/-- `search_personas(db, termino)`. -/
def search_personas (db : Store) (termino : String) : Store :=
  db.filter (searchMatch termino)

/-- `list_personas(db, skip, limit)`: `offset(skip).limit(limit)`. -/
def list_personas (db : Store) (skip : Nat := 0) (limit : Nat := 100) : Store :=
  (db.drop skip).take limit

/-- Python's `s.split(sep)` for a one-character separator, on the
character list: the fields between occurrences of the separator
(`"".split('@') == [""]`, `"a@b@c".split('@') == ["a","b","c"]`). -/
def splitFields (sep : Char) : List Char → List (List Char)
  | [] => [[]]
  | c :: rest =>
    let fields := splitFields sep rest
    if c == sep then [] :: fields
    else
      match fields with
      | [] => [[c]]
      | f :: fs => (c :: f) :: fs

/-- The key under which a row is counted by `get_stats_dominios`:
`p.email.split('@')[1]`, with `IndexError` (no `'@'`, a one-field split)
and `AttributeError` (NULL email) skipping the row.  `[1]` is the second
field — the text between the first and the second `'@'`. -/
def domainOf (p : Persona) : Option String :=
  match p.email with
  | none => none
  | some e => ((splitFields '@' e.data).get? 1).map (fun cs => String.mk cs)

/-- `conteo[dominio] = conteo.get(dominio, 0) + 1` on an insertion-ordered
dict modelled as an association list. -/
def bumpCount (conteo : List (String × Nat)) (k : String) : List (String × Nat) :=
  if conteo.any (fun kv => kv.1 == k) then
    conteo.map (fun kv => if kv.1 = k then (kv.1, kv.2 + 1) else kv)
  else conteo ++ [(k, 1)]

/-- One iteration of the counting loop of `get_stats_dominios`: skip the
row on a missing key, otherwise bump its domain's counter. -/
def statsStep (conteo : List (String × Nat)) (p : Persona) : List (String × Nat) :=
  match domainOf p with
  | none => conteo
  | some dominio => bumpCount conteo dominio

/-- `get_stats_dominios(db)`. -/
def get_stats_dominios (db : Store) : List (String × Nat) :=
  db.foldl statsStep []

/-- Dict lookup with default 0: `conteo.get(d, 0)`. -/
def lookupCount : List (String × Nat) → String → Nat
  | [], _ => 0
  | kv :: t, k => if kv.1 = k then kv.2 else lookupCount t k

/-- The key list of the result dict. -/
def countKeys (conteo : List (String × Nat)) : List String :=
  conteo.map (fun kv => kv.1)

/-- Python's lexicographic tuple order `(m1, d1) < (m2, d2)`. -/
def monthDayLt (m1 d1 m2 d2 : Nat) : Bool :=
  m1 < m2 || (m1 == m2 && d1 < d2)

/-- Age in whole years on day `hoy`:
`hoy.year - b.year - ((hoy.month, hoy.day) < (b.month, b.day))`. -/
def ageOn (hoy : PDate) (b : PDate) : Int :=
  hoy.year - b.year - (if monthDayLt hoy.month hoy.day b.month b.day then 1 else 0)

/-- The ages list built by `get_stats_edad`'s loop: one entry per row whose
`birth_date` is set (a Python `date` object is always truthy). -/
def edadesOf (hoy : PDate) (db : Store) : List Int :=
  (db.filterMap (fun p => p.birth_date)).map (ageOn hoy)

/-- Python `min` over a nonempty list (0 is never reached: callers guard). -/
def listMin : List Int → Int
  | [] => 0
  | x :: xs => xs.foldl min x

/-- Python `max` over a nonempty list (0 is never reached: callers guard). -/
def listMax : List Int → Int
  | [] => 0
  | x :: xs => xs.foldl max x

/-- The result record of `get_stats_edad`. -/
structure EdadStats where
  edad_promedio : Int
  edad_minima : Int
  edad_maxima : Int
deriving Repr, DecidableEq

/-- `get_stats_edad(db)` against the current date `hoy`;
`sum(edades) // len(edades)` is Python floor division, `Int.fdiv`. -/
def get_stats_edad (hoy : PDate) (db : Store) : EdadStats :=
  if db.isEmpty then ⟨0, 0, 0⟩
  else
    let edades := edadesOf hoy db
    if edades.isEmpty then ⟨0, 0, 0⟩
    else ⟨Int.fdiv edades.sum edades.length, listMin edades, listMax edades⟩

/-- `dominios_validos` of `poblar_personas`. -/
def dominios_validos : List String :=
  ["gmail.com", "outlook.com", "yahoo.com", "hotmail.com"]

/-- Modelled from the spec: the synthetic-data source of `poblar_personas`
(the module-level Faker generator and `random`, external libraries not in
the repository).  Each per-iteration draw is indexed by the iteration
counter: names and phone from Faker, `domIdx` the index drawn by
`random.choice` over `dominios_validos` (reduced mod the list length, as
`random.choice` always returns an element), the `date_of_birth` result,
the `random.choice([True, False])` flag and the optional sentence. -/
structure FakeGen where
  first_name : Nat → String
  last_name : Nat → String
  domIdx : Nat → Nat
  phone : Nat → String
  birth_date : Nat → PDate
  is_active : Nat → Bool
  note : Nat → Option String

/-- Python's `str.lower()`, characterwise on the underlying characters
(coincides with it on the ASCII names used below). -/
def pyLower (s : String) : String :=
  ⟨s.data.map Char.toLower⟩

/-- The row built in iteration `i` of `poblar_personas`, with email
`f"{first_name.lower()}.{last_name.lower()}@{dominio}"` and the id the
store will assign on insert. -/
def genPersona (g : FakeGen) (baseId : Nat) (i : Nat) : Persona :=
  let fn := g.first_name i
  let ln := g.last_name i
  let dominio := dominios_validos.getD (g.domIdx i % dominios_validos.length) ""
  { id := baseId + i
    first_name := fn
    last_name := ln
    email := some (pyLower fn ++ "." ++ pyLower ln ++ "@" ++ dominio)
    phone := some (g.phone i)
    birth_date := some (g.birth_date i)
    is_active := g.is_active i
    notes := g.note i }

/-- Can the batch be inserted row by row without tripping the unique-email
constraint? -/
def insertAllOk : Store → List Persona → Bool
  | _, [] => true
  | db, p :: rest => !emailConflictB p db && insertAllOk (db ++ [p]) rest

/-- `poblar_personas(db, cantidad)`: build `cantidad` synthetic rows, then
`add_all` + `commit`.  `commit` is not wrapped in a try/except here, so a
unique-constraint violation (duplicate generated emails, or a collision
with a stored row) rolls the whole batch back and escapes as a raw
`IntegrityError`. -/
def poblar_personas (g : FakeGen) (db : Store) (cantidad : Nat) :
    Except ServiceError (Store × Nat) :=
  let registros := (List.range cantidad).map (genPersona g (freshId db))
  if insertAllOk db registros then .ok (db ++ registros, registros.length)
  else .error .integrityError

/-! ### Helper lemmas about the unique-email invariant -/

/-- Email conflict between two single rows: both emails set and equal. -/
def conflict1 (q p : Persona) : Bool :=
  q.email.isSome && p.email == q.email

theorem emailConflictB_nil (q : Persona) : emailConflictB q [] = false := by
  cases h : q.email <;> simp [emailConflictB, h]

theorem emailConflictB_cons (q p : Persona) (l : Store) :
    emailConflictB q (p :: l) = (conflict1 q p || emailConflictB q l) := by
  cases h : q.email <;> simp [emailConflictB, conflict1, h]

theorem emailConflictB_append (q : Persona) (l1 l2 : Store) :
    emailConflictB q (l1 ++ l2) = (emailConflictB q l1 || emailConflictB q l2) := by
  cases h : q.email <;> simp [emailConflictB, h, List.any_append]

theorem conflict1_comm (q p : Persona) : conflict1 q p = conflict1 p q := by
  rw [Bool.eq_iff_iff]
  cases hq : q.email <;> cases hp : p.email <;> simp [conflict1, hq, hp]
  constructor <;> intro h <;> exact h.symm

theorem emailConflictB_singleton (q p : Persona) :
    emailConflictB q [p] = conflict1 q p := by
  cases h : q.email <;> simp [emailConflictB, conflict1, h]

/-- `emailsOk` of a list with one row spliced in: the row must not
conflict with the remainder, which must itself be conflict free.  The
position of the spliced row is irrelevant because conflicts are
symmetric. -/
theorem emailsOk_middle (p : Persona) :
    ∀ l1 l2 : Store, emailsOk (l1 ++ p :: l2) =
      (!emailConflictB p (l1 ++ l2) && emailsOk (l1 ++ l2)) := by
  intro l1
  induction l1 with
  | nil => intro l2; simp [emailsOk]
  | cons q t ih =>
    intro l2
    show (!emailConflictB q (t ++ p :: l2) && emailsOk (t ++ p :: l2)) =
      (!emailConflictB p (q :: (t ++ l2)) &&
        (!emailConflictB q (t ++ l2) && emailsOk (t ++ l2)))
    rw [ih l2, emailConflictB_append q t (p :: l2), emailConflictB_cons q p l2,
      emailConflictB_cons p q (t ++ l2), emailConflictB_append p t l2,
      emailConflictB_append q t l2, conflict1_comm p q]
    cases conflict1 q p <;> cases emailConflictB q t <;>
      cases emailConflictB q l2 <;> cases emailConflictB p t <;>
      cases emailConflictB p l2 <;> cases emailsOk (t ++ l2) <;> rfl

/-- A successful single-row insert into a conflict-free store keeps it
conflict free. -/
theorem emailsOk_append_one {db : Store} {p : Persona}
    (h : emailsOk db = true) (hc : emailConflictB p db = false) :
    emailsOk (db ++ [p]) = true := by
  have := emailsOk_middle p db []
  simp only [List.append_nil] at this
  simp [this, h, hc]

/-- Rows inserted one by one without a constraint violation keep the store
conflict free. -/
theorem emailsOk_insertAll :
    ∀ (new : List Persona) (db : Store), emailsOk db = true →
      insertAllOk db new = true → emailsOk (db ++ new) = true := by
  intro new
  induction new with
  | nil => intro db h _; simpa using h
  | cons p rest ih =>
    intro db h hok
    simp only [insertAllOk, Bool.and_eq_true, Bool.not_eq_true'] at hok
    have step := emailsOk_append_one h hok.1
    have := ih (db ++ [p]) step hok.2
    simpa [List.append_assoc] using this

/-- Decomposition of a successful id lookup: the store splits around the
first row carrying the id, and `removeById` / `replaceById` act exactly on
that row. -/
theorem find?_id_split :
    ∀ {db : Store} {pid : Nat} {obj : Persona},
      db.find? (fun p => p.id == pid) = some obj →
      ∃ l1 l2, db = l1 ++ obj :: l2 ∧ (∀ q ∈ l1, q.id ≠ pid) ∧ obj.id = pid ∧
        removeById pid db = l1 ++ l2 ∧
        ∀ newObj, replaceById pid newObj db = l1 ++ newObj :: l2 := by
  intro db
  induction db with
  | nil => intro pid obj h; simp at h
  | cons p rest ih =>
    intro pid obj h
    by_cases hp : p.id = pid
    · have hb : (p.id == pid) = true := by simp [hp]
      have hstep : List.find? (fun q => q.id == pid) (p :: rest) = some p :=
        List.find?_cons_of_pos rest hb
      rw [hstep] at h
      obtain rfl : p = obj := by injection h
      exact ⟨[], rest, rfl, by simp, hp, by simp [removeById, hb],
        fun newObj => by simp [replaceById, hb]⟩
    · have hb : ¬ ((p.id == pid) = true) := by simp [hp]
      have hstep : List.find? (fun q => q.id == pid) (p :: rest) =
          List.find? (fun q => q.id == pid) rest :=
        List.find?_cons_of_neg rest hb
      rw [hstep] at h
      obtain ⟨l1, l2, hsplit, hl1, hobj, hrem, hrep⟩ := ih h
      refine ⟨p :: l1, l2, by simp [hsplit], ?_, hobj, ?_, ?_⟩
      · intro q hq
        rcases List.mem_cons.mp hq with rfl | hq
        · exact hp
        · exact hl1 q hq
      · simp [removeById, hb, hrem]
      · intro newObj; simp [replaceById, hb, hrep newObj]

/-- Every stored id is strictly below the freshly assigned one. -/
theorem foldl_max_le :
    ∀ (db : Store) (a : Nat), a ≤ db.foldl (fun m p => max m p.id) a ∧
      ∀ p ∈ db, p.id ≤ db.foldl (fun m p => max m p.id) a := by
  intro db
  induction db with
  | nil => intro a; simp
  | cons q rest ih =>
    intro a
    have h1 := (ih (max a q.id)).1
    have h2 := (ih (max a q.id)).2
    constructor
    · exact le_trans (le_max_left a q.id) h1
    · intro p hp
      rcases List.mem_cons.mp hp with rfl | hp
      · exact le_trans (le_max_right a p.id) h1
      · exact h2 p hp

theorem id_lt_freshId {db : Store} {p : Persona} (hp : p ∈ db) :
    p.id < freshId db :=
  Nat.lt_succ_of_le ((foldl_max_le db 0).2 p hp)

/-- Decomposition of `emailsOk` around one row. -/
theorem emailsOk_of_middle {l1 l2 : Store} {p : Persona}
    (h : emailsOk (l1 ++ p :: l2) = true) :
    emailsOk (l1 ++ l2) = true ∧ emailConflictB p (l1 ++ l2) = false := by
  rw [emailsOk_middle] at h
  simp only [Bool.and_eq_true, Bool.not_eq_true'] at h
  exact ⟨h.2, h.1⟩

/-- `emailConflictB` only reads the row's email. -/
theorem emailConflictB_congr {p q : Persona} (h : p.email = q.email)
    (l : Store) : emailConflictB p l = emailConflictB q l := by
  unfold emailConflictB
  rw [h]

/-! ### Substring characterization of the `LIKE '%term%'` filter -/

theorem listStarts_iff (pat : List Char) :
    ∀ s : List Char, listStarts pat s = true ↔ ∃ t, s = pat ++ t := by
  induction pat with
  | nil => intro s; simp [listStarts]
  | cons a as ih =>
    intro s
    cases s with
    | nil => simp [listStarts]
    | cons b bs =>
      simp only [listStarts, Bool.and_eq_true, beq_iff_eq, ih bs,
        List.cons_append, List.cons.injEq]
      constructor
      · rintro ⟨rfl, t, rfl⟩; exact ⟨t, rfl, rfl⟩
      · rintro ⟨t, h1, h2⟩; exact ⟨h1.symm, t, h2⟩

theorem subOccurs_iff (pat : List Char) :
    ∀ s : List Char, subOccurs pat s = true ↔ ∃ l1 l2, s = l1 ++ pat ++ l2 := by
  intro s
  induction s with
  | nil =>
    simp only [subOccurs, listStarts_iff]
    constructor
    · rintro ⟨t, h⟩; exact ⟨[], t, h⟩
    · rintro ⟨l1, l2, h⟩
      rw [List.append_assoc] at h
      rcases List.append_eq_nil.mp h.symm with ⟨rfl, h2⟩
      exact ⟨l2, h2.symm⟩
  | cons c rest ih =>
    simp only [subOccurs, Bool.or_eq_true, listStarts_iff, ih]
    constructor
    · rintro (⟨t, h⟩ | ⟨l1, l2, h⟩)
      · exact ⟨[], t, h⟩
      · exact ⟨c :: l1, l2, by simp [h]⟩
    · rintro ⟨l1, l2, h⟩
      cases l1 with
      | nil => exact Or.inl ⟨l2, by simpa using h⟩
      | cons x l1' =>
        refine Or.inr ⟨l1', l2, ?_⟩
        rw [List.cons_append, List.cons_append, List.cons.injEq] at h
        exact h.2

/-- `anySuffix` in terms of a split of the list. -/
theorem anySuffix_iff (f : List Char → Bool) :
    ∀ s : List Char, anySuffix f s = true ↔
      ∃ l1 l2, s = l1 ++ l2 ∧ f l2 = true := by
  intro s
  induction s with
  | nil =>
    simp only [anySuffix]
    constructor
    · intro h; exact ⟨[], [], rfl, h⟩
    · rintro ⟨l1, l2, h, hf⟩
      rcases List.append_eq_nil.mp h.symm with ⟨rfl, rfl⟩
      exact hf
  | cons c rest ih =>
    simp only [anySuffix, Bool.or_eq_true, ih]
    constructor
    · rintro (h | ⟨l1, l2, rfl, hf⟩)
      · exact ⟨[], c :: rest, rfl, h⟩
      · exact ⟨c :: l1, l2, rfl, hf⟩
    · rintro ⟨l1, l2, h, hf⟩
      cases l1 with
      | nil =>
        left
        have hl : l2 = c :: rest := by simpa using h.symm
        rw [← hl]
        exact hf
      | cons x l1' =>
        right
        rw [List.cons_append, List.cons.injEq] at h
        exact ⟨l1', l2, h.2, hf⟩

/-- `term ++ ['%']` with a wildcard-free `term` matches exactly the lists
that begin with `term`. -/
theorem likeMatch_lit_pct :
    ∀ t : List Char, (∀ c ∈ t, c ≠ '%' ∧ c ≠ '_') →
      ∀ s : List Char, likeMatch (t ++ ['%']) s = true ↔ ∃ l2, s = t ++ l2 := by
  intro t
  induction t with
  | nil =>
    intro _ s
    have hstep : likeMatch ([] ++ ['%']) s = anySuffix (likeMatch []) s := by
      simp [likeMatch]
    rw [hstep, anySuffix_iff]
    constructor
    · rintro ⟨l1, l2, rfl, hf⟩
      exact ⟨l1 ++ l2, by simp⟩
    · rintro ⟨l2, rfl⟩
      exact ⟨s, [], by simp, rfl⟩
  | cons c t ih =>
    intro hps s
    have hc := hps c (List.mem_cons_self c t)
    have ht : ∀ x ∈ t, x ≠ '%' ∧ x ≠ '_' :=
      fun x hx => hps x (List.mem_cons_of_mem c hx)
    have hq : (c == '%') = false := by simp [hc.1]
    have hu : (c == '_') = false := by simp [hc.2]
    cases s with
    | nil =>
      rw [List.cons_append]
      simp only [likeMatch, hq, Bool.false_eq_true, if_false]
      simp
    | cons b rest =>
      rw [List.cons_append]
      simp only [likeMatch, hq, Bool.false_eq_true, if_false, hu, Bool.false_or,
        Bool.and_eq_true, beq_iff_eq, ih ht rest, List.cons_append, List.cons.injEq]
      constructor
      · rintro ⟨rfl, l2, rfl⟩
        exact ⟨l2, rfl, rfl⟩
      · rintro ⟨l2, hb, hrest⟩
        exact ⟨hb.symm, l2, hrest⟩

/-- For a term containing neither `'%'` nor `'_'`, the rendered
`LIKE '%term%'` filter is exactly substring occurrence. -/
theorem strContains_no_wildcard_iff (termino : String)
    (h : ∀ c ∈ termino.data, c ≠ '%' ∧ c ≠ '_') (s : String) :
    strContains s termino = true ↔
      ∃ l1 l2, s.data = l1 ++ termino.data ++ l2 := by
  unfold strContains
  have hhead : likeMatch ('%' :: (termino.data ++ ['%'])) s.data =
      anySuffix (likeMatch (termino.data ++ ['%'])) s.data := by
    simp [likeMatch]
  rw [hhead, anySuffix_iff]
  constructor
  · rintro ⟨l1, l2, hs, hf⟩
    obtain ⟨l3, rfl⟩ := (likeMatch_lit_pct termino.data h l2).mp hf
    exact ⟨l1, l3, by rw [hs]; simp [List.append_assoc]⟩
  · rintro ⟨l1, l2, hs⟩
    exact ⟨l1, termino.data ++ l2, by simp [hs, List.append_assoc],
      (likeMatch_lit_pct termino.data h (termino.data ++ l2)).mpr ⟨l2, rfl⟩⟩

/-! ### Claim theorems -/

/-- C9: `reset_personas` empties the store (a store of N rows loses all N)
and returns exactly the number of rows it deleted. -/
theorem reset_deletes_all (db : Store) :
    (reset_personas db).1 = [] ∧ (reset_personas db).2 = db.length :=
  ⟨rfl, rfl⟩

/-- C10: searching for the empty term returns every stored row: the empty
string is a substring of every first name, so the `or_` filter accepts
every row (even one with a NULL email, which the email clause alone would
not match). -/
theorem search_empty_term_returns_all (db : Store) :
    search_personas db "" = db := by
  apply List.filter_eq_self.mpr
  intro p _
  have h1 : strContains p.first_name "" = true :=
    (strContains_no_wildcard_iff "" (by simp) p.first_name).mpr
      ⟨[], p.first_name.data, by simp⟩
  simp [searchMatch, h1]

/-- C4: `get_persona`, `delete_persona` and `update_persona` all fail with
`PersonaNotFound` for an id matching no row (the transaction rolls back,
leaving the store unchanged); for a matching id, `get_persona` returns the
first row with that id and `delete_persona` removes exactly that row. -/
theorem notfound_and_id_lookup (db : Store) (pid : Nat) :
    ((∀ p ∈ db, p.id ≠ pid) →
      get_persona db pid = .error .personaNotFound ∧
      delete_persona db pid = .error .personaNotFound ∧
      ∀ payload, update_persona db pid payload = .error .personaNotFound) ∧
    (∀ obj, db.find? (fun p => p.id == pid) = some obj →
      get_persona db pid = .ok obj ∧
      ∃ l1 l2, db = l1 ++ obj :: l2 ∧ (∀ q ∈ l1, q.id ≠ pid) ∧ obj.id = pid ∧
        delete_persona db pid = .ok (l1 ++ l2)) := by
  constructor
  · intro hno
    have hfind : db.find? (fun p => p.id == pid) = none :=
      List.find?_eq_none.mpr (fun x hx => by simpa using hno x hx)
    exact ⟨by simp [get_persona, hfind], by simp [delete_persona, hfind],
      fun payload => by simp [update_persona, hfind]⟩
  · intro obj hfind
    obtain ⟨l1, l2, hsplit, hl1, hobj, hrem, _⟩ := find?_id_split hfind
    exact ⟨by simp [get_persona, hfind], l1, l2, hsplit, hl1, hobj,
      by simp [delete_persona, hfind, hrem]⟩

/-- C4 witness: all three operations report `PersonaNotFound` on a store
without the id, and `get`/`delete` act on the matching row otherwise. -/
theorem notfound_and_id_lookup_witness :
    get_persona [⟨1, "Ana", "Gil", some "ana@gmail.com", none, none, true, none⟩] 7 =
      .error .personaNotFound ∧
    delete_persona [⟨1, "Ana", "Gil", some "ana@gmail.com", none, none, true, none⟩] 7 =
      .error .personaNotFound ∧
    update_persona [⟨1, "Ana", "Gil", some "ana@gmail.com", none, none, true, none⟩] 7
      ⟨none, none, none, none, none, none, none⟩ = .error .personaNotFound ∧
    delete_persona [⟨1, "Ana", "Gil", some "ana@gmail.com", none, none, true, none⟩] 1 =
      .ok [] := by
  have h1 := (notfound_and_id_lookup
    [⟨1, "Ana", "Gil", some "ana@gmail.com", none, none, true, none⟩] 7).1
    (by decide)
  have h2 := (notfound_and_id_lookup
    [⟨1, "Ana", "Gil", some "ana@gmail.com", none, none, true, none⟩] 1).2
    ⟨1, "Ana", "Gil", some "ana@gmail.com", none, none, true, none⟩ (by decide)
  obtain ⟨l1, l2, hsplit, -, -, hdel⟩ := h2.2
  have hl : l1 ++ l2 = [] := by
    have hlen := congrArg List.length hsplit
    simp only [List.length_append, List.length_cons] at hlen
    have e1 : l1 = [] := List.eq_nil_of_length_eq_zero (by simp at hlen; omega)
    have e2 : l2 = [] := List.eq_nil_of_length_eq_zero (by simp at hlen; omega)
    simp [e1, e2]
  exact ⟨h1.1, h1.2.1, h1.2.2 _, by rw [hdel, hl]⟩

/-- C2: a create whose email is already stored fails with
`EmailAlreadyExists` and rolls back (the caller keeps the unchanged
store); otherwise the row is inserted with the freshly assigned id and
returned, a second create with the same email then fails, and exactly one
row carries the email. -/
theorem create_email_uniqueness (db : Store) (payload : PersonaCreate) :
    ((∃ p ∈ db, p.email = some payload.email) →
      create_persona db payload = .error .emailAlreadyExists) ∧
    ((∀ p ∈ db, p.email ≠ some payload.email) →
      create_persona db payload =
          .ok (db ++ [mkPersona (freshId db) payload],
            mkPersona (freshId db) payload) ∧
      (mkPersona (freshId db) payload).email = some payload.email ∧
      (∀ p ∈ db, p.id ≠ (mkPersona (freshId db) payload).id) ∧
      (∀ payload2 : PersonaCreate, payload2.email = payload.email →
        create_persona (db ++ [mkPersona (freshId db) payload]) payload2 =
          .error .emailAlreadyExists) ∧
      ((db ++ [mkPersona (freshId db) payload]).filter
          (fun p => p.email == some payload.email)).length = 1) := by
  constructor
  · rintro ⟨p, hp, he⟩
    have hsome : (db.find? (fun q => q.email == some payload.email)).isSome :=
      List.find?_isSome.mpr ⟨p, hp, by simp [he]⟩
    obtain ⟨a, ha⟩ := Option.isSome_iff_exists.mp hsome
    simp [create_persona, ha]
  · intro hno
    have hfind : db.find? (fun q => q.email == some payload.email) = none :=
      List.find?_eq_none.mpr (fun x hx => by simpa using hno x hx)
    have hc : emailConflictB (mkPersona (freshId db) payload) db = false := by
      show db.any (fun q => q.email == some payload.email) = false
      exact List.any_eq_false.mpr (fun x hx => by simpa using hno x hx)
    refine ⟨by simp [create_persona, hfind, hc], rfl,
      fun p hp => Nat.ne_of_lt (id_lt_freshId hp), ?_, ?_⟩
    · intro payload2 h2
      have ha : db.find? (fun q => q.email == some payload2.email) = none :=
        List.find?_eq_none.mpr (fun x hx => by simpa [h2] using hno x hx)
      have hpred : ((mkPersona (freshId db) payload).email ==
          some payload2.email) = true := by
        simp [mkPersona, h2]
      have hsingle : List.find? (fun q => q.email == some payload2.email)
          [mkPersona (freshId db) payload] =
          some (mkPersona (freshId db) payload) :=
        List.find?_cons_of_pos [] hpred
      have hfind2 : (db ++ [mkPersona (freshId db) payload]).find?
          (fun q => q.email == some payload2.email) =
          some (mkPersona (freshId db) payload) := by
        rw [List.find?_append, ha, hsingle]
        rfl
      simp [create_persona, hfind2]
    · rw [List.filter_append]
      have h1 : db.filter (fun p => p.email == some payload.email) = [] :=
        List.filter_eq_nil_iff.mpr (fun a ha => by simpa using hno a ha)
      rw [h1]
      simp [mkPersona]

/-- C2 witness: the duplicate-email create fails, the fresh-email create
persists the new row. -/
theorem create_email_uniqueness_witness :
    create_persona [⟨1, "Ana", "Gil", some "ana@gmail.com", none, none, true, none⟩]
      ⟨"Eva", "Paz", "ana@gmail.com", none, none, true, none⟩ =
      .error .emailAlreadyExists ∧
    create_persona [⟨1, "Ana", "Gil", some "ana@gmail.com", none, none, true, none⟩]
      ⟨"Eva", "Paz", "eva@gmail.com", none, none, true, none⟩ =
      .ok ([⟨1, "Ana", "Gil", some "ana@gmail.com", none, none, true, none⟩] ++
          [mkPersona
            (freshId [⟨1, "Ana", "Gil", some "ana@gmail.com", none, none, true, none⟩])
            ⟨"Eva", "Paz", "eva@gmail.com", none, none, true, none⟩],
        mkPersona
          (freshId [⟨1, "Ana", "Gil", some "ana@gmail.com", none, none, true, none⟩])
          ⟨"Eva", "Paz", "eva@gmail.com", none, none, true, none⟩) := by
  constructor
  · exact (create_email_uniqueness
      [⟨1, "Ana", "Gil", some "ana@gmail.com", none, none, true, none⟩]
      ⟨"Eva", "Paz", "ana@gmail.com", none, none, true, none⟩).1
      ⟨⟨1, "Ana", "Gil", some "ana@gmail.com", none, none, true, none⟩,
        by decide, rfl⟩
  · exact ((create_email_uniqueness
      [⟨1, "Ana", "Gil", some "ana@gmail.com", none, none, true, none⟩]
      ⟨"Eva", "Paz", "eva@gmail.com", none, none, true, none⟩).2
      (by decide)).1

/-- C3: an update that requests an email different from the row's own and
already used by a different row fails with `EmailAlreadyExists` before any
field is written (rollback: the target row and the rest of the store are
unchanged); requesting the row's current email passes the check — which
excludes the row's own id — and the update commits. -/
theorem update_email_uniqueness (db : Store) (pid : Nat)
    (payload : PersonaUpdate) (obj : Persona)
    (hfind : db.find? (fun p => p.id == pid) = some obj) :
    (∀ e, payload.email = some e → some e ≠ obj.email →
      (∃ q ∈ db, q.email = some e ∧ q.id ≠ pid) →
      update_persona db pid payload = .error .emailAlreadyExists) ∧
    (∀ e, payload.email = some e → obj.email = some e →
      update_persona db pid payload =
        .ok (replaceById pid (applyUpdate obj payload) db,
          applyUpdate obj payload)) := by
  constructor
  · rintro e hpe hne ⟨q, hq, hqe, hqid⟩
    have hsome : (db.find? (fun p => p.email == some e && p.id != pid)).isSome :=
      List.find?_isSome.mpr ⟨q, hq, by simp [hqe, hqid]⟩
    obtain ⟨a, ha⟩ := Option.isSome_iff_exists.mp hsome
    have hbne : (some e != obj.email) = true := by
      rw [bne_iff_ne]; exact hne
    simp [update_persona, hfind, hpe, hbne, ha]
  · intro e hpe hoe
    have hbne : (some e != obj.email) = false := by simp [hoe]
    have hmail : (applyUpdate obj payload).email = obj.email := by
      simp [applyUpdate, hpe, hoe]
    have hbne2 : ((applyUpdate obj payload).email != obj.email) = false := by
      simp [hmail]
    simp [update_persona, hfind, hpe, hbne, hbne2]

/-- C3 witness: updating row 2's email to row 1's email fails; updating
row 2 to its own current email succeeds. -/
theorem update_email_uniqueness_witness :
    update_persona
      [⟨1, "Ana", "Gil", some "ana@gmail.com", none, none, true, none⟩,
        ⟨2, "Eva", "Paz", some "eva@gmail.com", none, none, true, none⟩] 2
      ⟨none, none, some "ana@gmail.com", none, none, none, none⟩ =
      .error .emailAlreadyExists ∧
    update_persona
      [⟨1, "Ana", "Gil", some "ana@gmail.com", none, none, true, none⟩,
        ⟨2, "Eva", "Paz", some "eva@gmail.com", none, none, true, none⟩] 2
      ⟨none, none, some "eva@gmail.com", none, none, none, none⟩ =
      .ok (replaceById 2
          (applyUpdate ⟨2, "Eva", "Paz", some "eva@gmail.com", none, none, true, none⟩
            ⟨none, none, some "eva@gmail.com", none, none, none, none⟩)
          [⟨1, "Ana", "Gil", some "ana@gmail.com", none, none, true, none⟩,
            ⟨2, "Eva", "Paz", some "eva@gmail.com", none, none, true, none⟩],
        applyUpdate ⟨2, "Eva", "Paz", some "eva@gmail.com", none, none, true, none⟩
          ⟨none, none, some "eva@gmail.com", none, none, none, none⟩) := by
  constructor
  · exact (update_email_uniqueness
      [⟨1, "Ana", "Gil", some "ana@gmail.com", none, none, true, none⟩,
        ⟨2, "Eva", "Paz", some "eva@gmail.com", none, none, true, none⟩] 2
      ⟨none, none, some "ana@gmail.com", none, none, none, none⟩
      ⟨2, "Eva", "Paz", some "eva@gmail.com", none, none, true, none⟩
      (by decide)).1 "ana@gmail.com" rfl (by decide)
      ⟨⟨1, "Ana", "Gil", some "ana@gmail.com", none, none, true, none⟩,
        by decide, rfl, by decide⟩
  · exact (update_email_uniqueness
      [⟨1, "Ana", "Gil", some "ana@gmail.com", none, none, true, none⟩,
        ⟨2, "Eva", "Paz", some "eva@gmail.com", none, none, true, none⟩] 2
      ⟨none, none, some "eva@gmail.com", none, none, none, none⟩
      ⟨2, "Eva", "Paz", some "eva@gmail.com", none, none, true, none⟩
      (by decide)).2 "eva@gmail.com" rfl rfl

/-- `emailContains` in terms of the rendered `LIKE` pattern. -/
theorem emailContains_iff (e : Option String) (t : String) :
    emailContains e t = true ↔
      ∃ s, e = some s ∧
        likeMatch ('%' :: (t.data ++ ['%'])) s.data = true := by
  cases e <;> simp [emailContains, strContains]

/-- C7 counterexample: searching for the bare wildcard term `"%"` returns
a row in none of whose fields `'%'` occurs as a substring — the claim's
"exactly the records in which the term occurs as a substring" fails for
that term on that store. -/
theorem search_wildcard_cex :
    search_personas [⟨1, "Ana", "Gil", some "ana@gmail.com", none, none, true, none⟩]
        "%" =
      [⟨1, "Ana", "Gil", some "ana@gmail.com", none, none, true, none⟩] ∧
    ¬ (∃ l1 l2, "Ana".data = l1 ++ "%".data ++ l2) ∧
    ¬ (∃ l1 l2, "Gil".data = l1 ++ "%".data ++ l2) ∧
    ¬ (∃ l1 l2, "ana@gmail.com".data = l1 ++ "%".data ++ l2) := by
  refine ⟨by decide, ?_, ?_, ?_⟩ <;>
    exact fun h => absurd ((subOccurs_iff _ _).mpr h) (by decide)

/-- C7 (amended): `search_personas` returns exactly the rows accepted on
first name, last name, or non-NULL email by the rendered SQL pattern
`'%' ++ termino ++ '%'` under `LIKE` semantics — the term's characters
match literally except the unescaped wildcards `'%'` (any sequence) and
`'_'` (exactly one character); for a term containing neither wildcard
this acceptance is exactly substring occurrence; the result is `[]` when
no row matches, and the function is total, so it never fails on an empty
or unmatched term. -/
theorem search_like_spec (db : Store) (termino : String) :
    (∀ p, p ∈ search_personas db termino ↔
      p ∈ db ∧
        (likeMatch ('%' :: (termino.data ++ ['%'])) p.first_name.data = true ∨
          likeMatch ('%' :: (termino.data ++ ['%'])) p.last_name.data = true ∨
          ∃ e, p.email = some e ∧
            likeMatch ('%' :: (termino.data ++ ['%'])) e.data = true)) ∧
    ((∀ c ∈ termino.data, c ≠ '%' ∧ c ≠ '_') → ∀ s : String,
      strContains s termino = true ↔
        ∃ l1 l2, s.data = l1 ++ termino.data ++ l2) ∧
    ((∀ p ∈ db, searchMatch termino p = false) →
      search_personas db termino = []) := by
  refine ⟨?_, ?_, ?_⟩
  · intro p
    rw [search_personas, List.mem_filter]
    apply and_congr_right
    intro _
    simp only [searchMatch, Bool.or_eq_true, strContains, emailContains_iff]
    exact or_assoc
  · intro hw s
    exact strContains_no_wildcard_iff termino hw s
  · intro hall
    exact List.filter_eq_nil_iff.mpr (fun a ha => by simp [hall a ha])

/-- C1: email uniqueness is an invariant of the store: each mutating
operation, run on a store whose non-NULL emails are pairwise distinct,
either fails — rolling the transaction back, so the caller keeps the
unchanged store — or commits a store whose non-NULL emails are again
pairwise distinct; in particular `poblar_personas` preserves the
invariant for every count in `[1, 1000]`. -/
theorem email_uniqueness_invariant (db : Store) (h : emailsOk db = true) :
    (∀ payload db' r, create_persona db payload = .ok (db', r) →
      emailsOk db' = true) ∧
    (∀ pid payload db' r, update_persona db pid payload = .ok (db', r) →
      emailsOk db' = true) ∧
    (∀ (g : FakeGen) cantidad db' n, 1 ≤ cantidad → cantidad ≤ 1000 →
      poblar_personas g db cantidad = .ok (db', n) → emailsOk db' = true) ∧
    (∀ pid db', delete_persona db pid = .ok db' → emailsOk db' = true) ∧
    emailsOk (reset_personas db).1 = true := by
  refine ⟨?_, ?_, ?_, ?_, rfl⟩
  · intro payload db' r hok
    cases hfind : db.find? (fun p => p.email == some payload.email) with
    | some a => simp [create_persona, hfind] at hok
    | none =>
      cases hc : emailConflictB (mkPersona (freshId db) payload) db with
      | true => simp [create_persona, hfind, hc] at hok
      | false =>
        simp only [create_persona, hfind, hc, Bool.false_eq_true, if_false,
          Except.ok.injEq, Prod.mk.injEq] at hok
        rw [← hok.1]
        exact emailsOk_append_one h hc
  · intro pid payload db' r hok
    cases hfind : db.find? (fun p => p.id == pid) with
    | none => simp [update_persona, hfind] at hok
    | some obj =>
      obtain ⟨l1, l2, hsplit, hl1, hobj, hrem, hrep⟩ := find?_id_split hfind
      obtain ⟨hrest, hnoc⟩ := @emailsOk_of_middle l1 l2 obj (hsplit ▸ h)
      simp only [update_persona, hfind] at hok
      split at hok
      · exact absurd hok (by simp)
      · split at hok
        · exact absurd hok (by simp)
        · rename_i hcommit
          simp only [Except.ok.injEq, Prod.mk.injEq] at hok
          rw [← hok.1, hrep (applyUpdate obj payload), emailsOk_middle]
          have hconf : emailConflictB (applyUpdate obj payload) (l1 ++ l2) = false := by
            have hcf : ((applyUpdate obj payload).email != obj.email &&
                emailConflictB (applyUpdate obj payload) (removeById pid db)) = false := by
              simpa using hcommit
            rcases Bool.and_eq_false_iff.mp hcf with hb | hb
            · have heq : (applyUpdate obj payload).email = obj.email :=
                bne_eq_false_iff_eq.mp hb
              rw [emailConflictB_congr heq]
              exact hnoc
            · rw [hrem] at hb
              exact hb
          simp [hconf, hrest]
  · intro g cantidad db' n _ _ hok
    cases hins : insertAllOk db ((List.range cantidad).map (genPersona g (freshId db))) with
    | false => simp [poblar_personas, hins] at hok
    | true =>
      simp only [poblar_personas, hins, if_true, Except.ok.injEq,
        Prod.mk.injEq] at hok
      rw [← hok.1]
      exact emailsOk_insertAll _ db h hins
  · intro pid db' hok
    cases hfind : db.find? (fun p => p.id == pid) with
    | none => simp [delete_persona, hfind] at hok
    | some obj =>
      obtain ⟨l1, l2, hsplit, _, _, hrem, _⟩ := find?_id_split hfind
      simp only [delete_persona, hfind, Except.ok.injEq] at hok
      rw [← hok, hrem]
      exact (@emailsOk_of_middle l1 l2 obj (hsplit ▸ h)).1

/-- C1 witness: creating a second, fresh-email row in a one-row store
yields a store that still satisfies the invariant. -/
theorem email_uniqueness_invariant_witness :
    emailsOk ([⟨1, "Ana", "Gil", some "ana@gmail.com", none, none, true, none⟩] ++
      [mkPersona
        (freshId [⟨1, "Ana", "Gil", some "ana@gmail.com", none, none, true, none⟩])
        ⟨"Eva", "Paz", "eva@gmail.com", none, none, true, none⟩]) = true :=
  (email_uniqueness_invariant
    [⟨1, "Ana", "Gil", some "ana@gmail.com", none, none, true, none⟩]
    (by decide)).1
    ⟨"Eva", "Paz", "eva@gmail.com", none, none, true, none⟩
    ([⟨1, "Ana", "Gil", some "ana@gmail.com", none, none, true, none⟩] ++
      [mkPersona
        (freshId [⟨1, "Ana", "Gil", some "ana@gmail.com", none, none, true, none⟩])
        ⟨"Eva", "Paz", "eva@gmail.com", none, none, true, none⟩])
    (mkPersona
      (freshId [⟨1, "Ana", "Gil", some "ana@gmail.com", none, none, true, none⟩])
      ⟨"Eva", "Paz", "eva@gmail.com", none, none, true, none⟩)
    (by rfl)

/-- Python's `min` over a fold: bounded above by the seed and by every
element. -/
theorem foldl_min_le_all (xs : List Int) :
    ∀ a : Int, xs.foldl min a ≤ a ∧ ∀ b ∈ xs, xs.foldl min a ≤ b := by
  induction xs with
  | nil => intro a; simp
  | cons x t ih =>
    intro a
    have h1 := (ih (min a x)).1
    have h2 := (ih (min a x)).2
    refine ⟨le_trans h1 (min_le_left a x), ?_⟩
    intro b hb
    rcases List.mem_cons.mp hb with rfl | hb
    · exact le_trans h1 (min_le_right a b)
    · exact h2 b hb

/-- Python's `min` over a fold is the seed or one of the elements. -/
theorem foldl_min_mem (xs : List Int) :
    ∀ a : Int, xs.foldl min a = a ∨ xs.foldl min a ∈ xs := by
  induction xs with
  | nil => intro a; simp
  | cons x t ih =>
    intro a
    rw [List.foldl_cons]
    rcases ih (min a x) with h | h
    · rcases min_choice a x with hm | hm
      · exact Or.inl (by rw [h, hm])
      · exact Or.inr (by rw [h, hm]; exact List.mem_cons_self x t)
    · exact Or.inr (List.mem_cons_of_mem x h)

/-- Python's `max` over a fold: bounded below by the seed and by every
element. -/
theorem foldl_max_ge_all (xs : List Int) :
    ∀ a : Int, a ≤ xs.foldl max a ∧ ∀ b ∈ xs, b ≤ xs.foldl max a := by
  induction xs with
  | nil => intro a; simp
  | cons x t ih =>
    intro a
    have h1 := (ih (max a x)).1
    have h2 := (ih (max a x)).2
    refine ⟨le_trans (le_max_left a x) h1, ?_⟩
    intro b hb
    rcases List.mem_cons.mp hb with rfl | hb
    · exact le_trans (le_max_right a b) h1
    · exact h2 b hb

/-- Python's `max` over a fold is the seed or one of the elements. -/
theorem foldl_max_mem (xs : List Int) :
    ∀ a : Int, xs.foldl max a = a ∨ xs.foldl max a ∈ xs := by
  induction xs with
  | nil => intro a; simp
  | cons x t ih =>
    intro a
    rw [List.foldl_cons]
    rcases ih (max a x) with h | h
    · rcases max_choice a x with hm | hm
      · exact Or.inl (by rw [h, hm])
      · exact Or.inr (by rw [h, hm]; exact List.mem_cons_self x t)
    · exact Or.inr (List.mem_cons_of_mem x h)

/-- C5: `get_stats_edad` aggregates over exactly the rows with a birth
date, each age being `year(hoy) - year(birth)` minus one when the current
month/day precedes the birth month/day lexicographically; the average is
the floor division of the age sum by the age count, the minimum and
maximum are attained ages bounding all considered ages, and an empty store
or a store with no birth dates yields all zeros. -/
theorem age_stats_spec (hoy : PDate) (db : Store) :
    (edadesOf hoy db = [] → get_stats_edad hoy db = ⟨0, 0, 0⟩) ∧
    (edadesOf hoy db ≠ [] →
      (get_stats_edad hoy db).edad_promedio =
        Int.fdiv (edadesOf hoy db).sum ((edadesOf hoy db).length : Int) ∧
      (get_stats_edad hoy db).edad_minima ∈ edadesOf hoy db ∧
      (∀ a ∈ edadesOf hoy db, (get_stats_edad hoy db).edad_minima ≤ a) ∧
      (get_stats_edad hoy db).edad_maxima ∈ edadesOf hoy db ∧
      (∀ a ∈ edadesOf hoy db, a ≤ (get_stats_edad hoy db).edad_maxima)) := by
  constructor
  · intro he
    cases hdb : db.isEmpty with
    | true => simp [get_stats_edad, hdb]
    | false => simp [get_stats_edad, hdb, he]
  · intro hne
    have hdb : db.isEmpty = false := by
      cases db with
      | nil => exact absurd rfl hne
      | cons p t => rfl
    obtain ⟨x, t, hxt⟩ : ∃ x t, edadesOf hoy db = x :: t := by
      cases hcase : edadesOf hoy db with
      | nil => exact absurd hcase hne
      | cons x t => exact ⟨x, t, rfl⟩
    have hee : (edadesOf hoy db).isEmpty = false := by rw [hxt]; rfl
    have hred : get_stats_edad hoy db =
        ⟨Int.fdiv (edadesOf hoy db).sum ((edadesOf hoy db).length : Int),
          listMin (edadesOf hoy db), listMax (edadesOf hoy db)⟩ := by
      simp [get_stats_edad, hdb, hee]
    rw [hred, hxt]
    refine ⟨rfl, ?_, ?_, ?_, ?_⟩
    · show t.foldl min x ∈ x :: t
      rcases foldl_min_mem t x with h | h
      · rw [h]; exact List.mem_cons_self x t
      · exact List.mem_cons_of_mem x h
    · intro a ha
      show t.foldl min x ≤ a
      rcases List.mem_cons.mp ha with rfl | ha
      · exact (foldl_min_le_all t a).1
      · exact (foldl_min_le_all t x).2 a ha
    · show t.foldl max x ∈ x :: t
      rcases foldl_max_mem t x with h | h
      · rw [h]; exact List.mem_cons_self x t
      · exact List.mem_cons_of_mem x h
    · intro a ha
      show a ≤ t.foldl max x
      rcases List.mem_cons.mp ha with rfl | ha
      · exact (foldl_max_ge_all t a).1
      · exact (foldl_max_ge_all t x).2 a ha

/-- Store used to witness C5: three rows with ages 20, 30 and 40 on
2026-10-12 and one row without a birth date. -/
def edadWitnessStore : Store :=
  [⟨1, "Ana", "Gil", some "ana@gmail.com", none, some ⟨2006, 1, 1⟩, true, none⟩,
    ⟨2, "Eva", "Paz", some "eva@gmail.com", none, some ⟨1996, 1, 1⟩, true, none⟩,
    ⟨3, "Luz", "Sol", some "luz@gmail.com", none, some ⟨1986, 1, 1⟩, true, none⟩,
    ⟨4, "Rey", "Mar", some "rey@gmail.com", none, none, true, none⟩]

/-- C5 witness: on the concrete store the average is the floor-divided
sum and the minimum and maximum are attained. -/
theorem age_stats_spec_witness :
    (get_stats_edad ⟨2026, 10, 12⟩ edadWitnessStore).edad_promedio =
      Int.fdiv (edadesOf ⟨2026, 10, 12⟩ edadWitnessStore).sum
        ((edadesOf ⟨2026, 10, 12⟩ edadWitnessStore).length : Int) ∧
    (get_stats_edad ⟨2026, 10, 12⟩ edadWitnessStore).edad_minima ∈
      edadesOf ⟨2026, 10, 12⟩ edadWitnessStore ∧
    (get_stats_edad ⟨2026, 10, 12⟩ edadWitnessStore).edad_maxima ∈
      edadesOf ⟨2026, 10, 12⟩ edadWitnessStore := by
  have h := (age_stats_spec ⟨2026, 10, 12⟩ edadWitnessStore).2 (by decide)
  exact ⟨h.1, h.2.1, h.2.2.2.1⟩

/-! ### Lemmas about the domain histogram -/

theorem any_key_iff (l : List (String × Nat)) (k : String) :
    l.any (fun kv => kv.1 == k) = true ↔ k ∈ countKeys l := by
  simp only [countKeys, List.any_eq_true, beq_iff_eq, List.mem_map]

theorem mem_countKeys_cons (kv : String × Nat) (t : List (String × Nat))
    (d : String) : d ∈ countKeys (kv :: t) ↔ d = kv.1 ∨ d ∈ countKeys t := by
  simp [countKeys]

theorem lookupCount_eq_zero_of_not_mem :
    ∀ {l : List (String × Nat)} {d : String},
      d ∉ countKeys l → lookupCount l d = 0 := by
  intro l
  induction l with
  | nil => intro d _; rfl
  | cons kv t ih =>
    intro d h
    rw [mem_countKeys_cons] at h
    push_neg at h
    show (if kv.1 = d then kv.2 else lookupCount t d) = 0
    rw [if_neg (fun hh => h.1 hh.symm)]
    exact ih h.2

theorem lookupCount_mapBump_ne {k d : String} (hne : d ≠ k) :
    ∀ l : List (String × Nat),
      lookupCount (l.map (fun kv => if kv.1 = k then (kv.1, kv.2 + 1) else kv)) d =
        lookupCount l d := by
  intro l
  induction l with
  | nil => rfl
  | cons kv t ih =>
    rw [List.map_cons]
    by_cases hk : kv.1 = k
    · rw [if_pos hk]
      show (if kv.1 = d then kv.2 + 1 else _) = (if kv.1 = d then kv.2 else _)
      rw [if_neg (fun hh : kv.1 = d => hne (hh ▸ hk)),
        if_neg (fun hh : kv.1 = d => hne (hh ▸ hk))]
      exact ih
    · rw [if_neg hk]
      show (if kv.1 = d then kv.2 else _) = (if kv.1 = d then kv.2 else _)
      by_cases hd : kv.1 = d
      · rw [if_pos hd, if_pos hd]
      · rw [if_neg hd, if_neg hd]; exact ih

theorem lookupCount_mapBump_eq {k : String} :
    ∀ {l : List (String × Nat)}, l.any (fun kv => kv.1 == k) = true →
      lookupCount (l.map (fun kv => if kv.1 = k then (kv.1, kv.2 + 1) else kv)) k =
        lookupCount l k + 1 := by
  intro l
  induction l with
  | nil => intro h; simp at h
  | cons kv t ih =>
    intro h
    rw [List.map_cons]
    by_cases hk : kv.1 = k
    · rw [if_pos hk]
      show (if kv.1 = k then kv.2 + 1 else _) = (if kv.1 = k then kv.2 else _) + 1
      rw [if_pos hk, if_pos hk]
    · rw [if_neg hk]
      show (if kv.1 = k then kv.2 else _) = (if kv.1 = k then kv.2 else _) + 1
      rw [if_neg hk, if_neg hk]
      have ht : t.any (fun kv => kv.1 == k) = true := by
        simp only [List.any_cons, Bool.or_eq_true] at h
        rcases h with h | h
        · exact absurd (by simpa using h) hk
        · exact h
      exact ih ht

theorem lookupCount_append_one (k d : String) (v : Nat) :
    ∀ l : List (String × Nat),
      lookupCount (l ++ [(k, v)]) d =
        if d ∈ countKeys l then lookupCount l d
        else (if k = d then v else 0) := by
  intro l
  induction l with
  | nil =>
    have hnm : d ∉ countKeys ([] : List (String × Nat)) := by simp [countKeys]
    rw [if_neg hnm]
    rfl
  | cons kv t ih =>
    rw [List.cons_append]
    by_cases hd : kv.1 = d
    · have hmem : d ∈ countKeys (kv :: t) :=
        (mem_countKeys_cons kv t d).mpr (Or.inl hd.symm)
      rw [if_pos hmem]
      show (if kv.1 = d then kv.2 else lookupCount (t ++ [(k, v)]) d) =
        (if kv.1 = d then kv.2 else lookupCount t d)
      rw [if_pos hd, if_pos hd]
    · show (if kv.1 = d then kv.2 else lookupCount (t ++ [(k, v)]) d) = _
      rw [if_neg hd, ih]
      by_cases hdm : d ∈ countKeys t
      · have hmem : d ∈ countKeys (kv :: t) :=
          (mem_countKeys_cons kv t d).mpr (Or.inr hdm)
        rw [if_pos hdm, if_pos hmem]
        show lookupCount t d = if kv.1 = d then kv.2 else lookupCount t d
        rw [if_neg hd]
      · have hnm : d ∉ countKeys (kv :: t) := fun hm => by
          rcases (mem_countKeys_cons kv t d).mp hm with hh | hh
          · exact hd hh.symm
          · exact hdm hh
        rw [if_neg hdm, if_neg hnm]

theorem lookupCount_bump (l : List (String × Nat)) (k d : String) :
    lookupCount (bumpCount l k) d =
      lookupCount l d + (if d = k then 1 else 0) := by
  unfold bumpCount
  by_cases hany : l.any (fun kv => kv.1 == k) = true
  · rw [if_pos hany]
    by_cases hd : d = k
    · subst hd
      rw [lookupCount_mapBump_eq hany, if_pos rfl]
    · rw [lookupCount_mapBump_ne hd l, if_neg hd]
      rfl
  · rw [if_neg hany, lookupCount_append_one]
    have hk : k ∉ countKeys l := fun hm => hany ((any_key_iff l k).mpr hm)
    by_cases hd : d = k
    · subst hd
      rw [if_neg hk, lookupCount_eq_zero_of_not_mem hk]
      simp
    · have hkd : ¬ (k = d) := fun h => hd h.symm
      by_cases hdm : d ∈ countKeys l
      · rw [if_pos hdm, if_neg hd]
        rfl
      · rw [if_neg hdm, lookupCount_eq_zero_of_not_mem hdm, if_neg hkd, if_neg hd]

theorem countKeys_mapBump (l : List (String × Nat)) (k : String) :
    countKeys (l.map (fun kv => if kv.1 = k then (kv.1, kv.2 + 1) else kv)) =
      countKeys l := by
  unfold countKeys
  rw [List.map_map]
  apply List.map_congr_left
  intro kv _
  by_cases hk : kv.1 = k <;> simp [hk]

theorem mem_keys_bump (l : List (String × Nat)) (k d : String) :
    d ∈ countKeys (bumpCount l k) ↔ d ∈ countKeys l ∨ d = k := by
  unfold bumpCount
  by_cases hany : l.any (fun kv => kv.1 == k) = true
  · rw [if_pos hany, countKeys_mapBump]
    constructor
    · exact Or.inl
    · rintro (h | rfl)
      · exact h
      · exact (any_key_iff l d).mp hany
  · rw [if_neg hany]
    simp [countKeys, List.map_append]

/-- Invariant of the counting fold of `get_stats_dominios`. -/
theorem stats_fold (db : Store) :
    ∀ (acc : List (String × Nat)) (d : String),
      lookupCount (db.foldl statsStep acc) d =
        lookupCount acc d + (db.filter (fun p => domainOf p == some d)).length ∧
      (d ∈ countKeys (db.foldl statsStep acc) ↔ d ∈ countKeys acc ∨
        0 < (db.filter (fun p => domainOf p == some d)).length) := by
  induction db with
  | nil => intro acc d; simp
  | cons p t ih =>
    intro acc d
    rw [List.foldl_cons, List.filter_cons]
    cases hdom : domainOf p with
    | none =>
      have hstep : statsStep acc p = acc := by simp [statsStep, hdom]
      rw [hstep]
      simp only [show ((none : Option String) == some d) = false from rfl,
        Bool.false_eq_true, if_false]
      exact ih acc d
    | some k =>
      have hstep : statsStep acc p = bumpCount acc k := by simp [statsStep, hdom]
      rw [hstep]
      obtain ⟨ih1, ih2⟩ := ih (bumpCount acc k) d
      by_cases hdk : d = k
      · subst hdk
        simp only [show ((some d == some d) : Bool) = true from by simp, if_true]
        refine ⟨?_, ?_⟩
        · rw [ih1, lookupCount_bump, if_pos rfl]
          simp only [List.length_cons]
          omega
        · rw [ih2, mem_keys_bump]
          simp
      · have hkd : ¬ (k = d) := fun h => hdk h.symm
        simp only [show ((some k == some d) : Bool) = false from by simp [hkd],
          Bool.false_eq_true, if_false]
        refine ⟨?_, ?_⟩
        · rw [ih1, lookupCount_bump, if_neg hdk]
          omega
        · rw [ih2, mem_keys_bump]
          constructor
          · rintro ((h | h) | h)
            · exact Or.inl h
            · exact absurd h hdk
            · exact Or.inr h
          · rintro (h | h)
            · exact Or.inl (Or.inl h)
            · exact Or.inr h

/-- C6 (amended): the histogram of `get_stats_dominios` maps each key to
the number of rows whose email's second `'@'`-split field (Python
`email.split('@')[1]` — for a single-`'@'` email, everything after the
`'@'`) equals that key; its keys are exactly the domains so obtained, and
rows with a NULL email or an email without `'@'` are skipped without
failing (the function is total). -/
theorem domain_stats_spec (db : Store) (d : String) :
    lookupCount (get_stats_dominios db) d =
      (db.filter (fun p => domainOf p == some d)).length ∧
    (d ∈ countKeys (get_stats_dominios db) ↔
      0 < (db.filter (fun p => domainOf p == some d)).length) := by
  obtain ⟨h1, h2⟩ := stats_fold db [] d
  rw [show lookupCount [] d = 0 from rfl] at h1
  refine ⟨by simpa [get_stats_dominios] using h1, ?_⟩
  rw [get_stats_dominios]
  rw [h2]
  simp [countKeys]

/-- The spec's reading of the domain key: the portion of the email after
the FIRST `'@'` (`none` when no `'@'` occurs). -/
def afterFirstAt : List Char → Option (List Char)
  | [] => none
  | c :: rest => if c == '@' then some rest else afterFirstAt rest

/-- C6 counterexample: for the stored email `"a@b@c"` the code counts the
domain key `"b"` (the field between the first and second `'@'`), while
the portion after the first `'@'` is `"b@c"`, which is not a key of the
histogram. -/
theorem domain_stats_after_at_cex :
    get_stats_dominios
      [⟨1, "Ana", "Gil", some "a@b@c", none, none, true, none⟩] = [("b", 1)] ∧
    afterFirstAt ("a@b@c".data) = some ("b@c".data) ∧
    "b" ∈ countKeys (get_stats_dominios
      [⟨1, "Ana", "Gil", some "a@b@c", none, none, true, none⟩]) ∧
    ¬ "b@c" ∈ countKeys (get_stats_dominios
      [⟨1, "Ana", "Gil", some "a@b@c", none, none, true, none⟩]) := by
  refine ⟨by decide, by decide, by decide, by decide⟩

/-- C7 witness: a wildcard-free term matching no field of any row yields
the empty result. -/
theorem search_like_spec_witness :
    search_personas
      [⟨1, "Ana", "Gil", some "ana@gmail.com", none, none, true, none⟩] "zz" = [] :=
  (search_like_spec
    [⟨1, "Ana", "Gil", some "ana@gmail.com", none, none, true, none⟩] "zz").2.2
    (by decide)

/-- A generator draw that repeats the same name on every iteration, so
`poblar_personas` derives the same email twice. -/
def constGen : FakeGen :=
  ⟨fun _ => "ana", fun _ => "gil", fun _ => 0, fun _ => "600111222",
    fun _ => ⟨1990, 1, 1⟩, fun _ => true, fun _ => none⟩

/-- C8 counterexample: with two identical draws both generated rows carry
the email `"ana.gil@gmail.com"`, the batch insert violates the
unique-email constraint, the transaction rolls back and the uncaught
`IntegrityError` escapes — nothing is inserted although `2 ∈ [1, 1000]`,
so BulkPopulate does not insert exactly `count` rows for every store and
count. -/
theorem poblar_exact_count_cex :
    poblar_personas constGen [] 2 = .error .integrityError ∧
    1 ≤ 2 ∧ 2 ≤ 1000 :=
  ⟨rfl, by decide, by decide⟩

/-- C8 (amended): whenever the generated batch passes the unique-email
constraint (no generated email collides with a stored one or with another
generated one), `poblar_personas` inserts exactly `cantidad` new rows and
returns `cantidad`; every inserted row's email has the shape
`lower(first_name).lower(last_name)@domain` with the domain drawn from the
fixed four-domain set, and its birth date meets the 18–90-years age bound
whenever the external `date_of_birth(minimum_age=18, maximum_age=90)`
draw meets its contract (hypothesis `hage`). -/
theorem poblar_spec (g : FakeGen) (db : Store) (cantidad : Nat) (hoy : PDate)
    (_hlo : 1 ≤ cantidad) (_hhi : cantidad ≤ 1000)
    (hok : insertAllOk db
      ((List.range cantidad).map (genPersona g (freshId db))) = true)
    (hage : ∀ i, i < cantidad → 18 ≤ ageOn hoy (g.birth_date i) ∧
      ageOn hoy (g.birth_date i) ≤ 90) :
    ∃ new, poblar_personas g db cantidad = .ok (db ++ new, cantidad) ∧
      new.length = cantidad ∧ (db ++ new).length = db.length + cantidad ∧
      ∀ p ∈ new,
        (∃ d ∈ dominios_validos, p.email =
          some (pyLower p.first_name ++ "." ++ pyLower p.last_name ++ "@" ++ d)) ∧
        ∃ b, p.birth_date = some b ∧ 18 ≤ ageOn hoy b ∧ ageOn hoy b ≤ 90 := by
  refine ⟨(List.range cantidad).map (genPersona g (freshId db)), ?_, by simp,
    by simp, ?_⟩
  · simp [poblar_personas, hok]
  · intro p hp
    obtain ⟨i, hir, hpe⟩ := List.mem_map.mp hp
    have hi : i < cantidad := List.mem_range.mp hir
    subst hpe
    constructor
    · refine ⟨dominios_validos.getD (g.domIdx i % dominios_validos.length) "",
        ?_, rfl⟩
      have hlt : g.domIdx i % dominios_validos.length < dominios_validos.length :=
        Nat.mod_lt _ (by decide)
      rw [List.getD_eq_getElem _ _ hlt]
      exact List.getElem_mem hlt
    · exact ⟨g.birth_date i, rfl, (hage i hi).1, (hage i hi).2⟩

/-- A generator draw producing two distinct names. -/
def freshGen : FakeGen :=
  ⟨fun i => if i = 0 then "ana" else "eva", fun _ => "gil", fun i => i,
    fun _ => "600111222", fun _ => ⟨1990, 1, 1⟩, fun _ => true, fun _ => none⟩

/-- C8 witness: a two-draw batch with distinct names commits. -/
theorem poblar_spec_witness :
    (poblar_personas freshGen [] 2).isOk = true := by
  obtain ⟨new, h1, -, -, -⟩ := poblar_spec freshGen [] 2 ⟨2026, 10, 12⟩
    (by decide) (by decide) (by rfl)
    (fun i hi => by
      have hb : freshGen.birth_date i = ⟨1990, 1, 1⟩ := rfl
      rw [hb]
      exact ⟨by decide, by decide⟩)
  rw [h1]
  rfl

end PersonaService
